import Mathlib

/-!
Verification of the manifest-rewriting proxy server (`server.js`).

The development shallowly embeds the request handlers of the proxy:

* the ad-marker line filter used by both `/playlist/:channel` and `/segment`
  (`split('\n').filter(...).join('\n')`),
* the top-level URL-token rewrite (`text.replace(/https?:\/\/[^\s]+/g, ...)`),
* the nested per-line rewrite (`text.replace(/^(?!#).*$/gm, ...)`) with
  WHATWG-style reference resolution (`new URL(s, base)`),
* `encodeURIComponent` / `decodeURIComponent` at the character level
  (UTF-8 percent encoding of every character outside the unreserved set),
* the `getPlaybackToken` helper and both route handlers, with outbound
  network traffic modelled as an explicit list of calls against an
  abstract `World` that supplies the upstream responses.

Strings are modelled as `List Char`; JS `\s` and `trim` use the JS
whitespace set; `toLowerCase` is modelled on the ASCII range.
-/

set_option maxRecDepth 20000

namespace AdFreeProxy

/-- JS whitespace: the characters matched by a `\s` regex class and trimmed
by `String.prototype.trim`. -/
def isJsWs (c : Char) : Bool :=
  c.toNat == 9 || c.toNat == 10 || c.toNat == 11 || c.toNat == 12 || c.toNat == 13 ||
  c.toNat == 32 || c.toNat == 160 || c.toNat == 0x1680 ||
  (0x2000 ≤ c.toNat && c.toNat ≤ 0x200A) ||
  c.toNat == 0x2028 || c.toNat == 0x2029 || c.toNat == 0x202F || c.toNat == 0x205F ||
  c.toNat == 0x3000 || c.toNat == 0xFEFF

/-- Negation of `isJsWs`, the `[^\s]` character class. -/
def nonWs (c : Char) : Bool := !(isJsWs c)

/-- Model of `String.prototype.trim`. -/
def jsTrim (s : List Char) : List Char :=
  ((s.dropWhile isJsWs).reverse.dropWhile isJsWs).reverse

/-- Model of `String.prototype.toLowerCase` on one character (ASCII range). -/
def lowerChar (c : Char) : Char :=
  if 65 ≤ c.toNat ∧ c.toNat ≤ 90 then Char.ofNat (c.toNat + 32) else c

/-- Model of `String.prototype.toLowerCase`. -/
def lowerStr (s : List Char) : List Char := s.map lowerChar

/-- Model of `String.prototype.includes`: `containsSub s pat` is true when
`pat` occurs contiguously inside `s`. -/
def containsSub : List Char → List Char → Bool
  | [], pat => pat.isEmpty
  | c :: rest, pat => pat.isPrefixOf (c :: rest) || containsSub rest pat

/-- Model of `String.prototype.startsWith`. -/
def startsW (pat s : List Char) : Bool := pat.isPrefixOf s

/-- Generic splitter: cut a character list at every separator character,
modelling `String.prototype.split` with a one-character separator. -/
def splitBy (isSep : Char → Bool) : List Char → List (List Char)
  | [] => [[]]
  | c :: rest =>
    if isSep c then [] :: splitBy isSep rest
    else
      match splitBy isSep rest with
      | [] => [[c]]
      | l :: ls => (c :: l) :: ls

/-- Model of `text.split('\n')`. -/
def splitLines (s : List Char) : List (List Char) :=
  splitBy (fun c => c.toNat == 10) s

/-- Model of `lines.join('\n')`. -/
def joinLines (ls : List (List Char)) : List Char :=
  List.intercalate [Char.ofNat 10] ls

/-- The reserved advertisement-marker directive, `'#EXT-X-DATERANGE'`. -/
def dateRangeMark : List Char := "#EXT-X-DATERANGE".data

/-- First ad-indicator substring, `'stitched-ad'`. -/
def stitchedAd : List Char := "stitched-ad".data

/-- Second ad-indicator substring, `'twitchad'`. -/
def twitchAd : List Char := "twitchad".data

/-- The filter callback of the ad-stripping block in both handlers: a line is
dropped exactly when it starts with `#EXT-X-DATERANGE` and its lowercased form
contains `stitched-ad` or `twitchad`. -/
def keepLine (line : List Char) : Bool :=
  if startsW dateRangeMark line then
    let l := lowerStr line
    !(containsSub l stitchedAd || containsSub l twitchAd)
  else true

/-- The line-list stage of the ad strip: `lines.filter(keepLine)`. -/
def adFilter (lines : List (List Char)) : List (List Char) := lines.filter keepLine

/-- The full ad-stripping statement `text.split('\n').filter(...).join('\n')`. -/
def adStrip (text : List Char) : List Char := joinLines (adFilter (splitLines text))

/-! ### encodeURIComponent / decodeURIComponent -/

/-- Characters that `encodeURIComponent` leaves unencoded:
ASCII alphanumerics and `- _ . ! ~ * ' ( )`. -/
def isUnreservedURI (c : Char) : Bool :=
  (65 ≤ c.toNat && c.toNat ≤ 90) || (97 ≤ c.toNat && c.toNat ≤ 122) ||
  (48 ≤ c.toNat && c.toNat ≤ 57) ||
  c.toNat == 45 || c.toNat == 95 || c.toNat == 46 || c.toNat == 33 ||
  c.toNat == 126 || c.toNat == 42 || c.toNat == 39 || c.toNat == 40 || c.toNat == 41

/-- UTF-8 byte sequence of a code point. -/
def utf8Bytes (n : Nat) : List Nat :=
  if n < 0x80 then [n]
  else if n < 0x800 then [0xC0 + n / 64, 0x80 + n % 64]
  else if n < 0x10000 then [0xE0 + n / 4096, 0x80 + n / 64 % 64, 0x80 + n % 64]
  else [0xF0 + n / 262144, 0x80 + n / 4096 % 64, 0x80 + n / 64 % 64, 0x80 + n % 64]

/-- Uppercase hexadecimal digit for a value below 16. -/
def hexDigitChar (n : Nat) : Char :=
  if n < 10 then Char.ofNat (48 + n) else Char.ofNat (55 + n)

/-- Percent-encoding of one byte, e.g. byte 47 becomes `%2F`. -/
def pctEncodeByte (b : Nat) : List Char :=
  [Char.ofNat 37, hexDigitChar (b / 16), hexDigitChar (b % 16)]

/-- `encodeURIComponent` on one character: unreserved characters stand for
themselves, every other character contributes the percent-encoding of its
UTF-8 bytes. -/
def encodeCharURI (c : Char) : List Char :=
  if isUnreservedURI c then [c] else (utf8Bytes c.toNat).flatMap pctEncodeByte

/-- Model of `encodeURIComponent`. -/
def encodeURIComponent (s : List Char) : List Char := s.flatMap encodeCharURI

/-- Value of a hexadecimal digit character, if it is one. -/
def hexVal (c : Char) : Option Nat :=
  if 48 ≤ c.toNat ∧ c.toNat ≤ 57 then some (c.toNat - 48)
  else if 65 ≤ c.toNat ∧ c.toNat ≤ 70 then some (c.toNat - 55)
  else if 97 ≤ c.toNat ∧ c.toNat ≤ 102 then some (c.toNat - 87)
  else none

/-- Intermediate token of percent-decoding: a literal character or a decoded
`%XX` byte. -/
inductive PctTok where
  | raw (c : Char)
  | byte (b : Nat)
deriving DecidableEq

/-- First phase of `decodeURIComponent`: replace each `%XX` triple by its
byte; fail on a malformed escape (a `%` not followed by two hex digits). -/
def pctTokens : List Char → Option (List PctTok)
  | [] => some []
  | c :: h :: l :: rest =>
    if c.toNat == 37 then
      (hexVal h).bind (fun hv => (hexVal l).bind (fun lv =>
        (pctTokens rest).map (fun ts => PctTok.byte (16 * hv + lv) :: ts)))
    else (pctTokens (h :: l :: rest)).map (fun ts => PctTok.raw c :: ts)
  | c :: rest =>
    if c.toNat == 37 then none
    else (pctTokens rest).map (fun ts => PctTok.raw c :: ts)

/-- UTF-8 continuation byte test. -/
def isContByte (b : Nat) : Bool := 128 ≤ b && b < 192

/-- View a percent token as a byte, if it is one. -/
def asByte : PctTok → Option Nat
  | PctTok.byte b => some b
  | PctTok.raw _ => none

/-- Byte value of the token at position `i`, if that token is a byte. -/
def byteAt (ts : List PctTok) (i : Nat) : Option Nat := (ts[i]?).bind asByte

/-- Decode one code point from the front of the token stream: a literal
character stands for itself, an ASCII byte for its character, and a UTF-8
lead byte must be followed by the right number of continuation bytes;
overlong forms, surrogates and out-of-range code points are rejected as the
JS builtin rejects them (it throws `URIError` there). Returns the decoded
character and the remaining tokens. -/
def decodeOne : List PctTok → Option (Char × List PctTok)
  | [] => none
  | PctTok.raw c :: ts => some (c, ts)
  | PctTok.byte b :: ts =>
    if b < 128 then some (Char.ofNat b, ts)
    else if b < 194 then none
    else if b < 224 then
      (byteAt ts 0).bind (fun b2 =>
        if isContByte b2 then some (Char.ofNat ((b - 192) * 64 + (b2 - 128)), ts.drop 1)
        else none)
    else if b < 240 then
      (byteAt ts 0).bind (fun b2 => (byteAt ts 1).bind (fun b3 =>
        if isContByte b2 && isContByte b3 then
          if 2048 ≤ (b - 224) * 4096 + (b2 - 128) * 64 + (b3 - 128) ∧
              ¬(55296 ≤ (b - 224) * 4096 + (b2 - 128) * 64 + (b3 - 128) ∧
                (b - 224) * 4096 + (b2 - 128) * 64 + (b3 - 128) < 57344) then
            some (Char.ofNat ((b - 224) * 4096 + (b2 - 128) * 64 + (b3 - 128)), ts.drop 2)
          else none
        else none))
    else if b < 245 then
      (byteAt ts 0).bind (fun b2 => (byteAt ts 1).bind (fun b3 => (byteAt ts 2).bind (fun b4 =>
        if isContByte b2 && isContByte b3 && isContByte b4 then
          if 65536 ≤ (b - 240) * 262144 + (b2 - 128) * 4096 + (b3 - 128) * 64 + (b4 - 128) ∧
              (b - 240) * 262144 + (b2 - 128) * 4096 + (b3 - 128) * 64 + (b4 - 128) <
                1114112 then
            some (Char.ofNat
              ((b - 240) * 262144 + (b2 - 128) * 4096 + (b3 - 128) * 64 + (b4 - 128)),
              ts.drop 3)
          else none
        else none)))
    else none

/-- Second phase of `decodeURIComponent`: repeatedly decode code points
until the stream is exhausted. The fuel argument only drives the recursion;
one token list length is always enough since every step consumes at least
one token. -/
def utf8DecodeLoop : Nat → List PctTok → Option (List Char)
  | _, [] => some []
  | 0, _ :: _ => none
  | fuel + 1, t :: ts =>
    (decodeOne (t :: ts)).bind (fun p => (utf8DecodeLoop fuel p.2).map (fun l => p.1 :: l))

/-- UTF-8 decoding of a percent-token stream. -/
def utf8DecodeToks (ts : List PctTok) : Option (List Char) :=
  utf8DecodeLoop ts.length ts

/-- Model of `decodeURIComponent`; `none` models a thrown `URIError`. -/
def decodeURIComponent (s : List Char) : Option (List Char) :=
  (pctTokens s).bind utf8DecodeToks

/-! ### URL parsing and reference resolution

A simplified WHATWG model sufficient for `http(s)` URLs as they occur in
manifests: `scheme://host/seg0/seg1...` plus a verbatim query-and-fragment
tail. Userinfo, ports, percent-encoding of path characters and backslash
separators are outside the model; host names are lowercased, dot path
segments are normalised, and an empty host is a parse failure exactly as
`new URL` throws on it. -/

structure UrlModel where
  scheme : List Char
  host : List Char
  path : List (List Char)
  rest : List Char
deriving DecidableEq

/-- Serialisation of a parsed URL, modelling `URL.prototype.toString`. -/
def urlToString (u : UrlModel) : List Char :=
  u.scheme ++ "://".data ++ u.host ++ [Char.ofNat 47] ++
    List.intercalate [Char.ofNat 47] u.path ++ u.rest

/-- Characters allowed after the first one in a URL scheme. -/
def schemeTailChar (c : Char) : Bool :=
  c.isAlpha || (48 ≤ c.toNat && c.toNat ≤ 57) ||
  c.toNat == 43 || c.toNat == 45 || c.toNat == 46

/-- Split a leading `scheme:` off a reference, if present: an ASCII letter
followed by scheme characters and a colon. -/
def schemeSplit (s : List Char) : Option (List Char × List Char) :=
  match s with
  | [] => none
  | c :: _ =>
    if c.isAlpha then
      match s.dropWhile schemeTailChar with
      | colon :: rest =>
        if colon.toNat == 58 then some (s.takeWhile schemeTailChar, rest) else none
      | [] => none
    else none

/-- Characters ending the host component: `/`, `?` or `#`. -/
def hostStopChar (c : Char) : Bool := c.toNat == 47 || c.toNat == 63 || c.toNat == 35

/-- Characters ending the path component: `?` or `#`. -/
def qhStopChar (c : Char) : Bool := c.toNat == 63 || c.toNat == 35

/-- WHATWG dot-segment normalisation over a parsed segment list: `.` segments
are dropped, `..` segments pop the previous segment, and a trailing dot
segment leaves a trailing empty segment. -/
def dotNorm (acc : List (List Char)) : List (List Char) → List (List Char)
  | [] => acc.reverse
  | seg :: rest =>
    if seg = [Char.ofNat 46] then
      if rest.isEmpty then ([] :: acc).reverse else dotNorm acc rest
    else if seg = [Char.ofNat 46, Char.ofNat 46] then
      if rest.isEmpty then ([] :: acc.tail).reverse else dotNorm acc.tail rest
    else
      if rest.isEmpty then (seg :: acc).reverse else dotNorm (seg :: acc) rest

/-- Parse the part after the authority into path segments and the
query-and-fragment tail. -/
def parsePathRest (s : List Char) : List (List Char) × List Char :=
  match s with
  | [] => ([[]], [])
  | c :: rest =>
    if c.toNat == 47 then
      (dotNorm [] (splitBy (fun d => d.toNat == 47) (rest.takeWhile (fun d => !qhStopChar d))),
       rest.dropWhile (fun d => !qhStopChar d))
    else ([[]], c :: rest)

/-- Parse `host/path?query` (the part after `scheme://`); fails when the host
is empty, as `new URL` does for special schemes. -/
def parseHostPath (scheme after : List Char) : Option UrlModel :=
  let hostRaw := after.takeWhile (fun c => !hostStopChar c)
  if hostRaw.isEmpty then none
  else
    let pr := parsePathRest (after.dropWhile (fun c => !hostStopChar c))
    some { scheme := scheme, host := lowerStr hostRaw, path := pr.1, rest := pr.2 }

/-- Parse an absolute `http(s)` URL, modelling `new URL(s)` on such inputs. -/
def parseAbs (s : List Char) : Option UrlModel :=
  match schemeSplit s with
  | none => none
  | some (sch, rest) =>
    let schL := lowerStr sch
    if schL = "http".data || schL = "https".data then
      match rest with
      | c1 :: c2 :: rest2 =>
        if c1.toNat == 47 && c2.toNat == 47 then parseHostPath schL rest2 else none
      | _ => none
    else none

/-- Query part of a query-and-fragment tail (drops the fragment). -/
def queryOnly (r : List Char) : List Char := r.takeWhile (fun c => !(c.toNat == 35))

/-- Model of `new URL(s, base).toString()`: resolve reference `s` against
`base` and serialise; `none` models a thrown `TypeError`. -/
def resolveURL (base : UrlModel) (s : List Char) : Option (List Char) :=
  match schemeSplit s with
  | some (sch, restAfter) =>
    let schL := lowerStr sch
    if schL = "http".data || schL = "https".data then
      (parseAbs s).map urlToString
    else
      some (schL ++ [Char.ofNat 58] ++ restAfter)
  | none =>
    match s with
    | [] => some (urlToString { base with rest := queryOnly base.rest })
    | c :: rest =>
      if c.toNat == 47 then
        match rest with
        | c2 :: rest2 =>
          if c2.toNat == 47 then (parseHostPath base.scheme rest2).map urlToString
          else
            some (urlToString { base with path := (parsePathRest s).1, rest := (parsePathRest s).2 })
        | [] =>
          some (urlToString { base with path := (parsePathRest s).1, rest := (parsePathRest s).2 })
      else if c.toNat == 63 then
        some (urlToString { base with rest := s })
      else if c.toNat == 35 then
        some (urlToString { base with rest := queryOnly base.rest ++ s })
      else
        some (urlToString { base with
          path := dotNorm [] (base.path.dropLast ++
            splitBy (fun d => d.toNat == 47) (s.takeWhile (fun d => !qhStopChar d))),
          rest := s.dropWhile (fun d => !qhStopChar d) })

/-! ### The two rewrite passes -/

/-- The relay-local callback a reference is rewritten to:
`host + '/segment?u=' + encodeURIComponent(u)`, where `host` stands for
the `req.protocol + '://' + req.get('host')` part built by the handlers. -/
def callbackRef (host u : List Char) : List Char :=
  host ++ "/segment?u=".data ++ encodeURIComponent u

/-- Literal `http://`. -/
def httpPfx : List Char := "http://".data

/-- Literal `https://`. -/
def httpsPfx : List Char := "https://".data

/-- Head of a list is a non-whitespace character. -/
def headNonWs (s : List Char) : Bool :=
  match s with
  | c :: _ => nonWs c
  | [] => false

/-- Position test for the regex `https?:\/\/[^\s]+`: a match starts here
exactly when one of the two literal prefixes is present and at least one
non-whitespace character follows it. -/
def urlMatchAt (s : List Char) : Bool :=
  (httpPfx.isPrefixOf s && headNonWs (s.drop 7)) ||
  (httpsPfx.isPrefixOf s && headNonWs (s.drop 8))

/-- Scanner for the global replace `text.replace(/https?:\/\/[^\s]+/g, f)`:
in scan mode (`none`) characters are copied until a match position; in
token mode (`some acc`, with `acc` the reversed token consumed so far) the
maximal non-whitespace run is consumed and `f` of the whole token emitted. -/
def repStep (f : List Char → List Char) : Option (List Char) → List Char → List Char
  | none, [] => []
  | none, c :: rest =>
    if urlMatchAt (c :: rest) then repStep f (some [c]) rest
    else c :: repStep f none rest
  | some tokAcc, [] => f tokAcc.reverse
  | some tokAcc, c :: rest =>
    if nonWs c then repStep f (some (c :: tokAcc)) rest
    else f tokAcc.reverse ++ c :: repStep f none rest

/-- Model of `text.replace(/https?:\/\/[^\s]+/g, f)`: replace each maximal
non-whitespace token starting with `http://` or `https://` by `f` applied
to it. -/
def replaceURLs (f : List Char → List Char) (s : List Char) : List Char :=
  repStep f none s

/-- First character of a line is `#`. -/
def hashFirst (line : List Char) : Bool :=
  match line with
  | c :: _ => c.toNat == 35
  | [] => false

/-- The replacement callback of the nested (`/segment`) rewrite: trim the
line; pass through blank or `#`-starting content; otherwise resolve against
the base and wrap the result (or, on resolution failure, the trimmed line
itself) in the relay callback. -/
def segCallback (host : List Char) (base : UrlModel) (line : List Char) : List Char :=
  let s := jsTrim line
  if s.isEmpty || hashFirst s then s
  else callbackRef host ((resolveURL base s).getD s)

/-- One line of the nested rewrite `text.replace(/^(?!#).*$/gm, ...)`: a line
whose first character is `#` is not matched by the pattern and stays as it
is; every other line is replaced by the callback's result. -/
def segLineCore (host : List Char) (base : UrlModel) (line : List Char) : List Char :=
  if hashFirst line then line else segCallback host base line

/-- Line terminators recognised by a multiline `^`/`$` and excluded by `.`
in a JS regex. -/
def lineBreakChar (c : Char) : Bool :=
  c.toNat == 10 || c.toNat == 13 || c.toNat == 0x2028 || c.toNat == 0x2029

/-- Accumulator form of a per-line map, `acc` holding the reversed current
line: at each line terminator the per-line function is applied and the
terminator kept. -/
def mapLinesAcc (g : List Char → List Char) (acc : List Char) : List Char → List Char
  | [] => g acc.reverse
  | c :: rest =>
    if lineBreakChar c then g acc.reverse ++ c :: mapLinesAcc g [] rest
    else mapLinesAcc g (c :: acc) rest

/-- Apply a per-line function to every maximal run between line terminators,
keeping the terminators; this is the shape of a `/^...$/gm` global replace. -/
def mapLines (g : List Char → List Char) (s : List Char) : List Char :=
  mapLinesAcc g [] s

/-- Body processing of the top-level `/playlist` handler: strip ad-marker
lines, then rewrite every URL-shaped token through the relay callback. -/
def processTop (host text : List Char) : List Char :=
  replaceURLs (callbackRef host) (adStrip text)

/-- Body processing of the nested `/segment` handler on manifests: strip
ad-marker lines, then rewrite whole reference lines through the relay
callback, resolving each against the fetched URL. -/
def processNested (host : List Char) (base : UrlModel) (text : List Char) : List Char :=
  mapLines (segLineCore host base) (adStrip text)

/-! ### Route handlers and the network model

Outbound traffic is modelled explicitly: a `World` maps each possible
upstream request to its response, and every handler returns the ordered
list of calls it issued together with its HTTP response. The handlers are
pure functions of the `World`, so same input and same upstream behaviour
always give the same result. -/

/-- The GraphQL variables object sent to the authorization service. Both
attempts of `getPlaybackToken` build it with the same fixed fields and only
the `playerType` differs. -/
structure GqlVars where
  isLive : Bool
  login : List Char
  isVod : Bool
  vodID : List Char
  playerType : List Char
deriving DecidableEq

/-- The parsed `streamPlaybackAccessToken` object of a GraphQL response
body; each field models an optional JSON string. -/
structure TokenFields where
  signature : Option (List Char)
  value : Option (List Char)
deriving DecidableEq

/-- Outcome of one `fetch` of the authorization service: a transport
failure (the promise rejects with some message) or an HTTP response with a
status and the token object extracted from its JSON body (if present). -/
inductive GqlResp where
  | netError (msg : List Char)
  | http (status : Nat) (tok : Option TokenFields)
deriving DecidableEq

/-- Outcome of one `fetch` of a content URL: transport failure, or an HTTP
response with status, declared content type and body. -/
inductive FetchResp where
  | netError (msg : List Char)
  | http (status : Nat) (contentType : Option (List Char)) (body : List Char)
deriving DecidableEq

/-- One outbound network call, as recorded in a handler's trace. -/
inductive NetCall where
  | gql (vars : GqlVars)
  | usher (login : List Char)
  | fetchSeg (url : List Char)
deriving DecidableEq

/-- Test whether a call targets the manifest-delivery (usher) service. -/
def isUsherCall : NetCall → Bool
  | NetCall.usher _ => true
  | _ => false

/-- The channel or URL a call carries. -/
def loginOf : NetCall → List Char
  | NetCall.gql v => v.login
  | NetCall.usher l => l
  | NetCall.fetchSeg u => u

/-- The environment of upstream services: responses for GraphQL queries,
for the manifest (usher) fetch of a channel, and for arbitrary content
URLs fetched by `/segment`. -/
structure World where
  gqlResp : GqlVars → GqlResp
  usherResp : List Char → FetchResp
  segResp : List Char → FetchResp

/-- HTTP response of a handler: status, body, and the content-type and
cache-control headers it set. -/
structure HResp where
  status : Nat
  body : List Char
  contentType : Option (List Char)
  cacheControl : Option (List Char)
deriving DecidableEq

/-- Literal `text/plain`, the type set by `res.type('text')`. -/
def textPlain : List Char := "text/plain".data

/-- Literal `application/vnd.apple.mpegurl`. -/
def mpegurlCT : List Char := "application/vnd.apple.mpegurl".data

/-- Literal `no-store`. -/
def noStore : List Char := "no-store".data

/-- Success test of a fetch response, `Response.ok`. -/
def okStatus (n : Nat) : Bool := 200 ≤ n && n < 300

/-- Variables of the first token attempt: `playerType: 'site'`. -/
def siteVars (login : List Char) : GqlVars :=
  { isLive := true, login := login, isVod := false, vodID := [], playerType := "site".data }

/-- Variables of the fallback token attempt, differing from `siteVars` only
in `playerType: 'embed'`. -/
def embedVars (login : List Char) : GqlVars :=
  { siteVars login with playerType := "embed".data }

/-- Decimal rendering of a status code, as JS string concatenation does. -/
def natChars (n : Nat) : List Char := (Nat.repr n).data

/-- Extraction of the credential from a parsed response body, modelling
`const tok = j?.[0]?.data?.streamPlaybackAccessToken` followed by
`if (!tok?.signature || !tok?.value) throw new Error('no_token')`; an empty
string field is falsy in JS and also rejected. -/
def extractTok : Option TokenFields → Except (List Char) (List Char × List Char)
  | none => Except.error "no_token".data
  | some t =>
    match t.signature, t.value with
    | some sg, some v =>
      if sg.isEmpty || v.isEmpty then Except.error "no_token".data else Except.ok (sg, v)
    | _, _ => Except.error "no_token".data

/-- Model of `getPlaybackToken(login)`: query with `playerType: 'site'`;
if and only if that response has a non-success status, retry once with
`playerType: 'embed'`; then fail with `gql_failed_<status>` on a second
non-success status, or extract the credential. A transport failure
propagates immediately as the thrown message. Returns the result together
with the trace of issued calls. -/
def getPlaybackToken (w : World) (login : List Char) :
    Except (List Char) (List Char × List Char) × List NetCall :=
  match w.gqlResp (siteVars login) with
  | GqlResp.netError m => (Except.error m, [NetCall.gql (siteVars login)])
  | GqlResp.http s1 t1 =>
    if okStatus s1 then (extractTok t1, [NetCall.gql (siteVars login)])
    else
      match w.gqlResp (embedVars login) with
      | GqlResp.netError m =>
        (Except.error m, [NetCall.gql (siteVars login), NetCall.gql (embedVars login)])
      | GqlResp.http s2 t2 =>
        if okStatus s2 then
          (extractTok t2, [NetCall.gql (siteVars login), NetCall.gql (embedVars login)])
        else
          (Except.error ("gql_failed_".data ++ natChars s2),
           [NetCall.gql (siteVars login), NetCall.gql (embedVars login)])

/-- Model of the validation regex `/^[a-z0-9_]{1,25}$/`. -/
def validChannel (s : List Char) : Bool :=
  decide (1 ≤ s.length) && decide (s.length ≤ 25) &&
    s.all (fun c =>
      (97 ≤ c.toNat && c.toNat ≤ 122) || (48 ≤ c.toNat && c.toNat ≤ 57) || c.toNat == 95)

/-- Model of the `/playlist/:channel` handler: lowercase the channel path
segment, validate the lowercased login, acquire a token, fetch the usher
manifest, strip ad markers and rewrite URL tokens. `host` stands for
`req.protocol + '://' + req.get('host')`. -/
def playlistRoute (w : World) (host channel : List Char) : HResp × List NetCall :=
  let login := lowerStr channel
  if !validChannel login then
    ({ status := 400, body := "bad_channel".data, contentType := some textPlain,
       cacheControl := none }, [])
  else
    match getPlaybackToken w login with
    | (Except.error e, calls) =>
      ({ status := 500, body := e, contentType := some textPlain, cacheControl := none }, calls)
    | (Except.ok _, calls) =>
      match w.usherResp login with
      | FetchResp.netError m =>
        ({ status := 500, body := m, contentType := some textPlain, cacheControl := none },
         calls ++ [NetCall.usher login])
      | FetchResp.http s _ body =>
        if okStatus s then
          ({ status := 200, body := processTop host body, contentType := some mpegurlCT,
             cacheControl := some noStore }, calls ++ [NetCall.usher login])
        else
          ({ status := 500, body := "usher_failed_".data ++ natChars s,
             contentType := some textPlain, cacheControl := none },
           calls ++ [NetCall.usher login])

/-- Model of the `/segment` handler: require the `u` query parameter, fetch
it, and classify by content type: a manifest body is ad-stripped and
rewritten line by line against `u` as base, any other body is passed
through unmodified with its upstream content type. -/
def segmentRoute (w : World) (host : List Char) (u : Option (List Char)) :
    HResp × List NetCall :=
  match u with
  | none =>
    ({ status := 400, body := "missing_u".data, contentType := some textPlain,
       cacheControl := none }, [])
  | some url =>
    match w.segResp url with
    | FetchResp.netError m =>
      ({ status := 500, body := m, contentType := some textPlain, cacheControl := none },
       [NetCall.fetchSeg url])
    | FetchResp.http s ctOpt body =>
      if okStatus s then
        let ct := ctOpt.getD "application/octet-stream".data
        if containsSub ct mpegurlCT then
          match parseAbs url with
          | some base =>
            ({ status := 200, body := processNested host base body, contentType := some ct,
               cacheControl := some noStore }, [NetCall.fetchSeg url])
          | none =>
            ({ status := 500, body := "Invalid URL".data, contentType := some textPlain,
               cacheControl := none }, [NetCall.fetchSeg url])
        else
          ({ status := 200, body := body, contentType := some ct, cacheControl := some noStore },
           [NetCall.fetchSeg url])
      else
        ({ status := 500, body := "upstream_".data ++ natChars s, contentType := some textPlain,
           cacheControl := none }, [NetCall.fetchSeg url])

/-! ### Concrete sample values used by witnesses and counterexamples -/

/-- Sample relay origin for concrete evaluations. -/
def hostEx : List Char := "https://relay.example".data

/-- Sample manifest fetch URL `https://host/a/master.m3u8`, parsed. -/
def baseEx : UrlModel :=
  { scheme := "https".data, host := "host".data,
    path := ["a".data, "master.m3u8".data], rest := [] }

/-- The stitched-ad marker line of the specification scenario. -/
def adLineEx : List Char := "#EXT-X-DATERANGE:CLASS=\"stitched-ad\",ID=\"1\"".data

/-- The non-ad daterange directive line of the specification scenario. -/
def progLineEx : List Char := "#EXT-X-DATERANGE:CLASS=\"program\"".data

/-- A credential object with non-empty signature and value. -/
def tokOK : TokenFields := { signature := some "sig".data, value := some "tokval".data }

/-- A world where every upstream call succeeds: the token is granted on the
first attempt, the usher manifest is a one-line playlist, and content
fetches return an MPEG-TS segment. -/
def wOK : World :=
  { gqlResp := fun _ => GqlResp.http 200 (some tokOK),
    usherResp := fun _ => FetchResp.http 200 (some mpegurlCT) "#EXTM3U".data,
    segResp := fun _ => FetchResp.http 200 (some "video/mp2t".data) "segbytes".data }

/-- A world whose authorization service answers 403 to every query; both
token attempts fail. -/
def wAuthFail : World :=
  { gqlResp := fun _ => GqlResp.http 403 none,
    usherResp := fun _ => FetchResp.http 200 (some mpegurlCT) "#EXTM3U".data,
    segResp := fun _ => FetchResp.http 200 (some "video/mp2t".data) "segbytes".data }

/-- Token shape contributed by one character of `encodeURIComponent` output:
a raw token for an unreserved character, otherwise the byte tokens of its
UTF-8 encoding. -/
def encToks (c : Char) : List PctTok :=
  if isUnreservedURI c then [PctTok.raw c] else (utf8Bytes c.toNat).map PctTok.byte

/-! ## Theorems -/

theorem keepLine_false_of_ad {line : List Char} (hpfx : startsW dateRangeMark line = true)
    (had : containsSub (lowerStr line) stitchedAd = true ∨
      containsSub (lowerStr line) twitchAd = true) :
    keepLine line = false := by
  unfold keepLine
  rw [hpfx]
  simp only [if_true]
  rcases had with h | h <;> simp [h]

theorem keepLine_true_of_clean {line : List Char}
    (h1 : containsSub (lowerStr line) stitchedAd = false)
    (h2 : containsSub (lowerStr line) twitchAd = false) :
    keepLine line = true := by
  unfold keepLine
  split
  · simp [h1, h2]
  · rfl

/-- C1: every `#EXT-X-DATERANGE` line whose lowercased content contains
`stitched-ad` or `twitchad` is dropped by the ad filter and every
`#EXT-X-DATERANGE` line containing neither is kept; concretely, in a
manifest consisting of the stitched-ad marker line and the plain program
daterange line, both rewrite passes output exactly the program line. -/
theorem claim1_ad_marker_filter :
    (∀ (lines : List (List Char)) (line : List Char),
        line ∈ lines → startsW dateRangeMark line = true →
        ((containsSub (lowerStr line) stitchedAd = true ∨
            containsSub (lowerStr line) twitchAd = true) → line ∉ adFilter lines) ∧
        (containsSub (lowerStr line) stitchedAd = false →
          containsSub (lowerStr line) twitchAd = false → line ∈ adFilter lines)) ∧
    processNested hostEx baseEx (adLineEx ++ [Char.ofNat 10] ++ progLineEx) = progLineEx ∧
    processTop hostEx (adLineEx ++ [Char.ofNat 10] ++ progLineEx) = progLineEx := by
  refine ⟨?_, by decide, by decide⟩
  intro lines line hmem hpfx
  constructor
  · intro had hin
    rw [adFilter, List.mem_filter] at hin
    rw [keepLine_false_of_ad hpfx had] at hin
    exact absurd hin.2 (by simp)
  · intro h1 h2
    rw [adFilter, List.mem_filter]
    exact ⟨hmem, keepLine_true_of_clean h1 h2⟩

theorem claim1_witness :
    adLineEx ∉ adFilter [adLineEx, progLineEx] ∧
    progLineEx ∈ adFilter [adLineEx, progLineEx] := by
  constructor
  · exact (claim1_ad_marker_filter.1 [adLineEx, progLineEx] adLineEx (by decide)
      (by decide)).1 (Or.inl (by decide))
  · exact (claim1_ad_marker_filter.1 [adLineEx, progLineEx] progLineEx (by decide)
      (by decide)).2 (by decide) (by decide)

theorem isPrefixOf_head {p s : List Char} {x : Char} (h : p.isPrefixOf s = true)
    (hx : p.head? = some x) : s.head? = some x := by
  cases p with
  | nil => simp at hx
  | cons a p' =>
    cases s with
    | nil => simp [List.isPrefixOf] at h
    | cons b s' =>
      simp [List.isPrefixOf] at h
      simp at hx
      simp [← hx, h.1]

theorem urlMatchAt_false_of_ws {c : Char} {l : List Char} (h : nonWs c = false) :
    urlMatchAt (c :: l) = false := by
  have hh : ∀ pfx : List Char, pfx.head? = some 'h' → pfx.isPrefixOf (c :: l) = false := by
    intro pfx hpfx
    cases hp : pfx.isPrefixOf (c :: l) with
    | false => rfl
    | true =>
      have := isPrefixOf_head hp hpfx
      simp at this
      rw [this] at h
      exact absurd h (by decide)
  unfold urlMatchAt
  rw [hh httpPfx (by decide), hh httpsPfx (by decide)]
  rfl

theorem urlMatch_headNonWs {s : List Char} (h : urlMatchAt s = true) :
    headNonWs s = true := by
  cases s with
  | nil => exact absurd h (by decide)
  | cons c l =>
    cases hn : nonWs c with
    | true => simp [headNonWs, hn]
    | false => rw [urlMatchAt_false_of_ws hn] at h; exact absurd h (by simp)

theorem takeWhile_nonWs_none {suf : List Char} (hsuf : headNonWs suf = false) :
    suf.takeWhile nonWs = [] := by
  cases suf with
  | nil => rfl
  | cons x xs => simp only [headNonWs] at hsuf; simp [List.takeWhile_cons, hsuf]

theorem dropWhile_nonWs_all {suf : List Char} (hsuf : headNonWs suf = false) :
    suf.dropWhile nonWs = suf := by
  cases suf with
  | nil => rfl
  | cons x xs => simp only [headNonWs] at hsuf; simp [List.dropWhile_cons, hsuf]

theorem repStep_tok (f : List Char → List Char) (tokAcc l : List Char) :
    repStep f (some tokAcc) l =
      f (tokAcc.reverse ++ l.takeWhile nonWs) ++ repStep f none (l.dropWhile nonWs) := by
  induction l generalizing tokAcc with
  | nil => simp [repStep]
  | cons c rest ih =>
    cases hc : nonWs c with
    | true =>
      simp only [repStep, hc, if_true]
      rw [ih (c :: tokAcc)]
      simp [List.takeWhile_cons, List.dropWhile_cons, hc]
    | false =>
      simp only [repStep, hc, Bool.false_eq_true, if_false]
      have h2 : repStep f none (c :: rest) = c :: repStep f none rest := by
        simp [repStep, urlMatchAt_false_of_ws hc]
      simp [List.takeWhile_cons, List.dropWhile_cons, hc, h2]

theorem replaceURLs_cons_match {f : List Char → List Char} {c : Char} {rest : List Char}
    (h : urlMatchAt (c :: rest) = true) :
    replaceURLs f (c :: rest) =
      f (c :: rest.takeWhile nonWs) ++ replaceURLs f (rest.dropWhile nonWs) := by
  unfold replaceURLs
  simp only [repStep, h, if_true]
  rw [repStep_tok]
  rfl

theorem replaceURLs_cons_skip {f : List Char → List Char} {c : Char} {rest : List Char}
    (h : urlMatchAt (c :: rest) = false) :
    replaceURLs f (c :: rest) = c :: replaceURLs f rest := by
  unfold replaceURLs
  simp [repStep, h]

theorem replaceURLs_split (f : List Char → List Char) (pre tok suf : List Char)
    (hpre : ∀ i, i < pre.length → urlMatchAt ((pre ++ (tok ++ suf)).drop i) = false)
    (htok : urlMatchAt (tok ++ suf) = true)
    (hnws : ∀ c ∈ tok, nonWs c = true)
    (hsuf : headNonWs suf = false) :
    replaceURLs f (pre ++ (tok ++ suf)) = pre ++ f tok ++ replaceURLs f suf := by
  induction pre with
  | nil =>
    simp only [List.nil_append]
    cases tok with
    | nil =>
      simp only [List.nil_append] at htok
      rw [urlMatch_headNonWs htok] at hsuf
      exact absurd hsuf (by simp)
    | cons t tok' =>
      rw [List.cons_append] at htok ⊢
      rw [replaceURLs_cons_match htok]
      have h1 : (tok' ++ suf).takeWhile nonWs = tok' := by
        rw [List.takeWhile_append_of_pos (fun c hc => hnws c (List.mem_cons_of_mem t hc)),
          takeWhile_nonWs_none hsuf, List.append_nil]
      have h2 : (tok' ++ suf).dropWhile nonWs = suf := by
        rw [List.dropWhile_append_of_pos (fun c hc => hnws c (List.mem_cons_of_mem t hc)),
          dropWhile_nonWs_all hsuf]
      rw [h1, h2]
  | cons c pre' ih =>
    have h0 : urlMatchAt (c :: (pre' ++ (tok ++ suf))) = false := by
      have := hpre 0 (by simp)
      simpa using this
    rw [List.cons_append, replaceURLs_cons_skip h0]
    rw [ih (fun i hi => by
      have := hpre (i + 1) (by simp; omega)
      simpa using this)]
    simp

/-- C2: the two rewrite passes are asymmetric. The nested pass leaves every
line whose first character is `#` untouched and replaces every line whose
trimmed content is non-blank and not `#`-starting by the relay callback of
its resolved reference, while the top-level pass replaces every maximal
`https?://`-token of non-whitespace characters, wherever it occurs in the
text (in particular inside directive lines), by the relay callback. -/
theorem claim2_rewrite_asymmetry :
    (∀ (host : List Char) (base : UrlModel) (line : List Char),
        hashFirst line = true → segLineCore host base line = line) ∧
    (∀ (host : List Char) (base : UrlModel) (line : List Char),
        hashFirst line = false → jsTrim line ≠ [] → hashFirst (jsTrim line) = false →
        segLineCore host base line =
          callbackRef host ((resolveURL base (jsTrim line)).getD (jsTrim line))) ∧
    (∀ (host pre tok suf : List Char),
        (∀ i, i < pre.length → urlMatchAt ((pre ++ (tok ++ suf)).drop i) = false) →
        urlMatchAt (tok ++ suf) = true →
        (∀ c ∈ tok, nonWs c = true) →
        headNonWs suf = false →
        replaceURLs (callbackRef host) (pre ++ (tok ++ suf)) =
          pre ++ callbackRef host tok ++ replaceURLs (callbackRef host) suf) := by
  refine ⟨?_, ?_, ?_⟩
  · intro host base line h
    simp [segLineCore, h]
  · intro host base line h h1 h2
    rw [segLineCore, if_neg (by simp [h])]
    rw [segCallback]
    simp only [h2, Bool.or_false]
    rw [if_neg (by simp [List.isEmpty_iff, h1])]
  · intro host pre tok suf hpre htok hnws hsuf
    exact replaceURLs_split (callbackRef host) pre tok suf hpre htok hnws hsuf

theorem claim2_witness :
    segLineCore hostEx baseEx "#EXT-X-MEDIA:URI=https://e/x".data =
      "#EXT-X-MEDIA:URI=https://e/x".data ∧
    segLineCore hostEx baseEx "chunked/720p.m3u8".data =
      callbackRef hostEx "https://host/a/chunked/720p.m3u8".data ∧
    replaceURLs (callbackRef hostEx) "#EXT-X-MEDIA:URI=https://e/x".data =
      "#EXT-X-MEDIA:URI=".data ++ callbackRef hostEx "https://e/x".data := by
  refine ⟨?_, ?_, ?_⟩
  · exact claim2_rewrite_asymmetry.1 hostEx baseEx _ (by decide)
  · have h := claim2_rewrite_asymmetry.2.1 hostEx baseEx "chunked/720p.m3u8".data
      (by decide) (by decide) (by decide)
    rw [h]
    decide
  · have h := claim2_rewrite_asymmetry.2.2 hostEx "#EXT-X-MEDIA:URI=".data
      "https://e/x".data [] (by decide) (by decide) (by decide) (by decide)
    exact h.trans (by decide)

/-- C3 counterexample: the line `http://` is non-blank, not `#`-starting and
cannot be resolved against the base, yet the nested rewrite does not pass it
through unchanged: it wraps it in the relay callback. -/
theorem claim3_counterexample :
    jsTrim "http://".data = "http://".data ∧
    hashFirst "http://".data = false ∧
    resolveURL baseEx "http://".data = none ∧
    segLineCore hostEx baseEx "http://".data ≠ "http://".data ∧
    segLineCore hostEx baseEx "http://".data = callbackRef hostEx "http://".data := by
  refine ⟨by decide, by decide, by decide, by decide, by decide⟩

/-- C3 (amended): in the nested rewrite, a non-blank non-`#` line whose
trimmed content cannot be resolved against the base is not dropped and does
not abort the rewrite: the trimmed line itself takes the place of the
absolute URL, so the output line is still the relay callback carrying the
URL-encoded original reference; every other line of the manifest is
processed independently of the failure. -/
theorem claim3_resolution_failure_recovery :
    (∀ (host : List Char) (base : UrlModel) (line : List Char),
        hashFirst line = false → jsTrim line ≠ [] → hashFirst (jsTrim line) = false →
        resolveURL base (jsTrim line) = none →
        segLineCore host base line = callbackRef host (jsTrim line)) ∧
    processNested hostEx baseEx "chunked/720p.m3u8\nhttp://".data =
      callbackRef hostEx "https://host/a/chunked/720p.m3u8".data ++
        Char.ofNat 10 :: callbackRef hostEx "http://".data := by
  constructor
  · intro host base line h h1 h2 hres
    rw [segLineCore, if_neg (by simp [h])]
    rw [segCallback]
    simp only [h2, Bool.or_false]
    rw [if_neg (by simp [List.isEmpty_iff, h1])]
    rw [hres]
    rfl
  · decide

theorem claim3_amended_witness :
    segLineCore hostEx baseEx "http://".data = callbackRef hostEx "http://".data :=
  claim3_resolution_failure_recovery.1 hostEx baseEx "http://".data
    (by decide) (by decide) (by decide) (by decide)

/-- C4: in the nested rewrite every non-blank, non-directive reference line
whose trimmed content resolves against the manifest's fetch URL is replaced
by the relay callback carrying the URL-encoded absolute URL; concretely,
`chunked/720p.m3u8` against base `https://host/a/master.m3u8` resolves to
`https://host/a/chunked/720p.m3u8` and the output line is the callback with
the URL-encoded form of that absolute URL. -/
theorem claim4_relative_resolution :
    (∀ (host : List Char) (base : UrlModel) (line absu : List Char),
        hashFirst line = false → jsTrim line ≠ [] → hashFirst (jsTrim line) = false →
        resolveURL base (jsTrim line) = some absu →
        segLineCore host base line = host ++ "/segment?u=".data ++ encodeURIComponent absu) ∧
    resolveURL baseEx "chunked/720p.m3u8".data = some "https://host/a/chunked/720p.m3u8".data ∧
    segLineCore hostEx baseEx "chunked/720p.m3u8".data =
      hostEx ++ "/segment?u=".data ++ "https%3A%2F%2Fhost%2Fa%2Fchunked%2F720p.m3u8".data := by
  refine ⟨?_, by decide, by decide⟩
  intro host base line absu h h1 h2 hres
  rw [segLineCore, if_neg (by simp [h])]
  rw [segCallback]
  simp only [h2, Bool.or_false]
  rw [if_neg (by simp [List.isEmpty_iff, h1])]
  rw [hres]
  rfl

theorem claim4_witness :
    segLineCore hostEx baseEx "chunked/720p.m3u8".data =
      hostEx ++ "/segment?u=".data ++
        encodeURIComponent "https://host/a/chunked/720p.m3u8".data :=
  claim4_relative_resolution.1 hostEx baseEx "chunked/720p.m3u8".data
    "https://host/a/chunked/720p.m3u8".data (by decide) (by decide) (by decide) (by decide)

theorem char_valid_nat (c : Char) :
    c.toNat < 55296 ∨ (57343 < c.toNat ∧ c.toNat < 1114112) := c.valid

theorem char_toNat_lt (c : Char) : c.toNat < 1114112 := by
  rcases char_valid_nat c with h | h <;> omega

theorem toNat_ofNat_valid {n : Nat} (h : n.isValidChar) : (Char.ofNat n).toNat = n := by
  unfold Char.ofNat
  rw [dif_pos h]
  rfl

theorem hexVal_hexDigitChar {m : Nat} (h : m < 16) : hexVal (hexDigitChar m) = some m := by
  interval_cases m <;> decide

theorem unreserved_ne_pct {c : Char} (h : isUnreservedURI c = true) :
    (c.toNat == 37) = false := by
  cases heq : (c.toNat == 37) with
  | false => rfl
  | true =>
    have h37 : c.toNat = 37 := by simpa using heq
    simp [isUnreservedURI, h37] at h

theorem pctTokens_cons_raw {c : Char} (h : (c.toNat == 37) = false) (rest : List Char) :
    pctTokens (c :: rest) = (pctTokens rest).map (fun ts => PctTok.raw c :: ts) := by
  match rest with
  | [] => simp [pctTokens, h]
  | [x] => simp [pctTokens, h]
  | x :: y :: rest2 => simp [pctTokens, h]

theorem pctTokens_encByte {b : Nat} (hb : b < 256) (rest : List Char) :
    pctTokens (pctEncodeByte b ++ rest) =
      (pctTokens rest).map (fun ts => PctTok.byte b :: ts) := by
  have h1 : b / 16 < 16 := by omega
  have h2 : b % 16 < 16 := by omega
  have hc : ((Char.ofNat 37).toNat == 37) = true := by decide
  have hb' : 16 * (b / 16) + b % 16 = b := by omega
  simp only [pctEncodeByte, List.cons_append, List.nil_append, pctTokens, hc, if_true,
    hexVal_hexDigitChar h1, hexVal_hexDigitChar h2]
  simp [hb']

theorem utf8Bytes_bound {n : Nat} (hn : n < 1114112) : ∀ b ∈ utf8Bytes n, b < 256 := by
  intro b hb
  unfold utf8Bytes at hb
  by_cases h1 : n < 128
  · simp [h1] at hb
    omega
  · by_cases h2 : n < 2048
    · simp [h1, h2] at hb
      rcases hb with rfl | rfl <;> omega
    · by_cases h3 : n < 65536
      · simp [h1, h2, h3] at hb
        rcases hb with rfl | rfl | rfl <;> omega
      · simp [h1, h2, h3] at hb
        rcases hb with rfl | rfl | rfl | rfl <;> omega

theorem pctTokens_byteList {bs : List Nat} (hb : ∀ b ∈ bs, b < 256) (rest : List Char) :
    pctTokens (bs.flatMap pctEncodeByte ++ rest) =
      (pctTokens rest).map (fun ts => bs.map PctTok.byte ++ ts) := by
  induction bs with
  | nil =>
    show pctTokens rest = (pctTokens rest).map (fun ts => ts)
    cases pctTokens rest <;> rfl
  | cons b bs' ih =>
    simp only [List.flatMap_cons, List.append_assoc]
    rw [pctTokens_encByte (hb b (by simp)) _]
    rw [ih (fun x hx => hb x (by simp [hx]))]
    cases pctTokens rest <;> rfl

theorem pctTokens_encodeChar (c : Char) (rest : List Char) :
    pctTokens (encodeCharURI c ++ rest) = (pctTokens rest).map (fun ts => encToks c ++ ts) := by
  by_cases hu : isUnreservedURI c
  · simp only [encodeCharURI, encToks, hu, if_true, List.cons_append, List.nil_append]
    rw [pctTokens_cons_raw (unreserved_ne_pct hu)]
  · simp only [encodeCharURI, encToks, hu, Bool.false_eq_true, if_false]
    exact pctTokens_byteList (utf8Bytes_bound (char_toNat_lt c)) rest

theorem encToks_ne_nil (c : Char) : encToks c ≠ [] := by
  unfold encToks
  split
  · simp
  · have hb : utf8Bytes c.toNat ≠ [] := by
      unfold utf8Bytes
      repeat' split
      all_goals simp
    simp [hb]

theorem isContByte_iff {b : Nat} : isContByte b = true ↔ 128 ≤ b ∧ b < 192 := by
  simp [isContByte]

theorem decodeOne_encToks (c : Char) (ts : List PctTok) :
    decodeOne (encToks c ++ ts) = some (c, ts) := by
  by_cases hu : isUnreservedURI c
  · simp [encToks, hu, decodeOne]
  · simp only [encToks, hu, Bool.false_eq_true, if_false]
    have hval := char_valid_nat c
    by_cases h1 : c.toNat < 128
    · simp only [utf8Bytes, h1, if_true, List.map_cons, List.map_nil, List.cons_append,
        List.nil_append]
      simp [decodeOne, h1, Char.ofNat_toNat]
    · by_cases h2 : c.toNat < 2048
      · have hb1a : ¬(192 + c.toNat / 64 < 128) := by omega
        have hb1b : ¬(192 + c.toNat / 64 < 194) := by omega
        have hb1c : 192 + c.toNat / 64 < 224 := by omega
        have hcont : isContByte (128 + c.toNat % 64) = true := by
          rw [isContByte_iff]
          omega
        have harith : c.toNat / 64 * 64 + c.toNat % 64 = c.toNat := by omega
        simp only [utf8Bytes, h1, h2, if_true, if_false, ite_true, ite_false, List.map_cons,
          List.map_nil, List.cons_append, List.nil_append]
        simp [decodeOne, byteAt, asByte, hb1a, hb1b, hb1c, hcont, harith, Char.ofNat_toNat]
      · by_cases h3 : c.toNat < 65536
        · have hb1a : ¬(224 + c.toNat / 4096 < 128) := by omega
          have hb1b : ¬(224 + c.toNat / 4096 < 194) := by omega
          have hb1c : ¬(224 + c.toNat / 4096 < 224) := by omega
          have hb1d : 224 + c.toNat / 4096 < 240 := by omega
          have hcont2 : isContByte (128 + c.toNat / 64 % 64) = true := by
            rw [isContByte_iff]
            omega
          have hcont3 : isContByte (128 + c.toNat % 64) = true := by
            rw [isContByte_iff]
            omega
          have harith : c.toNat / 4096 * 4096 + c.toNat / 64 % 64 * 64 + c.toNat % 64 =
              c.toNat := by omega
          have hg1 : 2048 ≤ c.toNat := by omega
          simp only [utf8Bytes, h1, h2, h3, if_true, if_false, ite_true, ite_false,
            List.map_cons, List.map_nil, List.cons_append, List.nil_append]
          simp [decodeOne, byteAt, asByte, hb1a, hb1b, hb1c, hb1d, hcont2, hcont3, harith,
            hg1, Char.ofNat_toNat]
          exact fun hs => by rcases hval with h | h <;> omega
        · have hn4 : c.toNat < 1114112 := char_toNat_lt c
          have hb1a : ¬(240 + c.toNat / 262144 < 128) := by omega
          have hb1b : ¬(240 + c.toNat / 262144 < 194) := by omega
          have hb1c : ¬(240 + c.toNat / 262144 < 224) := by omega
          have hb1d : ¬(240 + c.toNat / 262144 < 240) := by omega
          have hb1e : 240 + c.toNat / 262144 < 245 := by omega
          have hcont2 : isContByte (128 + c.toNat / 4096 % 64) = true := by
            rw [isContByte_iff]
            omega
          have hcont3 : isContByte (128 + c.toNat / 64 % 64) = true := by
            rw [isContByte_iff]
            omega
          have hcont4 : isContByte (128 + c.toNat % 64) = true := by
            rw [isContByte_iff]
            omega
          have harith : c.toNat / 262144 * 262144 + c.toNat / 4096 % 64 * 4096 +
              c.toNat / 64 % 64 * 64 + c.toNat % 64 = c.toNat := by omega
          have hg1 : 65536 ≤ c.toNat := by omega
          simp only [utf8Bytes, h1, h2, h3, if_true, if_false, ite_true, ite_false,
            List.map_cons, List.map_nil, List.cons_append, List.nil_append]
          simp [decodeOne, byteAt, asByte, hb1a, hb1b, hb1c, hb1d, hb1e, hcont2, hcont3,
            hcont4, harith, hg1, hn4, Char.ofNat_toNat]

theorem decodeOne_shrink {ts : List PctTok} {c : Char} {ts2 : List PctTok}
    (h : decodeOne ts = some (c, ts2)) : ts2.length < ts.length := by
  match ts with
  | [] => simp [decodeOne] at h
  | PctTok.raw c0 :: ts0 =>
    simp [decodeOne] at h
    rw [← h.2]
    simp
  | PctTok.byte b :: ts0 =>
    simp only [decodeOne] at h
    by_cases h1 : b < 128
    · simp [h1] at h
      rw [← h.2]
      simp
    · by_cases h2 : b < 194
      · simp [h1, h2] at h
      · by_cases h3 : b < 224
        · simp only [h1, h2, h3, if_true, if_false, ite_true, ite_false] at h
          rcases hb2 : byteAt ts0 0 with _ | b2 <;> rw [hb2] at h
          · simp at h
          · simp only [Option.some_bind] at h
            by_cases hc : isContByte b2
            · simp [hc] at h
              rw [← h.2]
              have := List.length_drop 1 ts0
              simp
              omega
            · simp [hc] at h
        · by_cases h4 : b < 240
          · simp only [h1, h2, h3, h4, if_true, if_false, ite_true, ite_false] at h
            rcases hb2 : byteAt ts0 0 with _ | b2 <;> rw [hb2] at h
            · simp at h
            · rcases hb3 : byteAt ts0 1 with _ | b3 <;> rw [hb3] at h
              · simp at h
              · simp only [Option.some_bind] at h
                by_cases hc : isContByte b2 && isContByte b3
                · rw [hc] at h
                  simp only [if_true, ite_true] at h
                  split at h
                  · simp at h
                    rw [← h.2]
                    simp
                    omega
                  · simp at h
                · simp [hc] at h
          · by_cases h5 : b < 245
            · simp only [h1, h2, h3, h4, h5, if_true, if_false, ite_true, ite_false] at h
              rcases hb2 : byteAt ts0 0 with _ | b2 <;> rw [hb2] at h
              · simp at h
              · rcases hb3 : byteAt ts0 1 with _ | b3 <;> rw [hb3] at h
                · simp at h
                · rcases hb4 : byteAt ts0 2 with _ | b4 <;> rw [hb4] at h
                  · simp at h
                  · simp only [Option.some_bind] at h
                    by_cases hc : isContByte b2 && isContByte b3 && isContByte b4
                    · rw [hc] at h
                      simp only [if_true, ite_true] at h
                      split at h
                      · simp at h
                        rw [← h.2]
                        simp
                        omega
                      · simp at h
                    · simp [hc] at h
            · simp [h1, h2, h3, h4, h5] at h

theorem utf8DecodeLoop_ext : ∀ (a : Nat) (b : Nat) (ts : List PctTok),
    ts.length ≤ a → ts.length ≤ b → utf8DecodeLoop a ts = utf8DecodeLoop b ts := by
  intro a
  induction a with
  | zero =>
    intro b ts h1 h2
    have hnil : ts = [] := List.eq_nil_of_length_eq_zero (Nat.le_zero.mp h1)
    subst hnil
    cases b <;> rfl
  | succ a0 ih =>
    intro b ts h1 h2
    cases ts with
    | nil => cases b <;> rfl
    | cons t ts0 =>
      cases b with
      | zero => simp at h2
      | succ b0 =>
        simp only [utf8DecodeLoop]
        rcases hdec : decodeOne (t :: ts0) with _ | ⟨c, ts2⟩
        · rfl
        · have hlt := decodeOne_shrink hdec
          simp only [Option.some_bind]
          rw [ih b0 ts2 (by simp at h1 hlt ⊢; omega) (by simp at h2 hlt ⊢; omega)]

theorem utf8DecodeLoop_step {fuel : Nat} {l : List PctTok} {c : Char} {ts2 : List PctTok}
    (hd : decodeOne l = some (c, ts2)) :
    utf8DecodeLoop (fuel + 1) l = (utf8DecodeLoop fuel ts2).map (fun x => c :: x) := by
  cases l with
  | nil => simp [decodeOne] at hd
  | cons t ts0 => simp [utf8DecodeLoop, hd]

theorem utf8Decode_encToks (c : Char) (ts : List PctTok) :
    utf8DecodeToks (encToks c ++ ts) = (utf8DecodeToks ts).map (fun l => c :: l) := by
  unfold utf8DecodeToks
  have hd := decodeOne_encToks c ts
  have hpos : 1 ≤ (encToks c).length := List.length_pos.mpr (encToks_ne_nil c)
  have hlen : (encToks c ++ ts).length = (encToks c).length + ts.length :=
    List.length_append _ _
  obtain ⟨k, hk⟩ : ∃ k, (encToks c ++ ts).length = k + 1 :=
    ⟨(encToks c).length + ts.length - 1, by omega⟩
  rw [hk, utf8DecodeLoop_step hd]
  rw [utf8DecodeLoop_ext k ts.length ts (by omega) (Nat.le_refl _)]

/-- C5: for every URL either pass embeds, the `u` query parameter of the
rewritten reference is `encodeURIComponent` of the resolved absolute URL,
and decoding it yields back exactly that URL: decode after encode is the
identity on every character list. -/
theorem claim5_roundtrip (host u : List Char) :
    callbackRef host u = host ++ "/segment?u=".data ++ encodeURIComponent u ∧
    decodeURIComponent (encodeURIComponent u) = some u := by
  refine ⟨rfl, ?_⟩
  induction u with
  | nil => rfl
  | cons c s ih =>
    have henc : encodeURIComponent (c :: s) = encodeCharURI c ++ encodeURIComponent s := by
      simp [encodeURIComponent]
    rw [decodeURIComponent, henc, pctTokens_encodeChar]
    obtain ⟨ts, hts⟩ : ∃ ts, pctTokens (encodeURIComponent s) = some ts := by
      rcases hpt : pctTokens (encodeURIComponent s) with _ | ts
      · rw [decodeURIComponent, hpt] at ih
        simp at ih
      · exact ⟨ts, rfl⟩
    have hdec : utf8DecodeToks ts = some s := by
      rw [decodeURIComponent, hts] at ih
      simpa using ih
    rw [hts]
    show utf8DecodeToks (encToks c ++ ts) = some (c :: s)
    rw [utf8Decode_encToks, hdec]
    rfl

theorem getPlaybackToken_calls (w : World) (l : List Char) :
    (getPlaybackToken w l).2 = [NetCall.gql (siteVars l)] ∨
    (getPlaybackToken w l).2 = [NetCall.gql (siteVars l), NetCall.gql (embedVars l)] := by
  unfold getPlaybackToken
  rcases w.gqlResp (siteVars l) with m | ⟨s1, t1⟩
  · left
    rfl
  · by_cases h : okStatus s1
    · simp [h]
    · rcases w.gqlResp (embedVars l) with m | ⟨s2, t2⟩
      · simp [h]
      · by_cases h2 : okStatus s2 <;> simp [h, h2]

theorem getPlaybackToken_calls_spec (w : World) (l : List Char) :
    ∀ x ∈ (getPlaybackToken w l).2, ∃ v, x = NetCall.gql v ∧ v.login = l := by
  rcases getPlaybackToken_calls w l with h | h <;> rw [h] <;> intro x hx <;> simp at hx
  · exact ⟨siteVars l, hx, rfl⟩
  · rcases hx with rfl | rfl
    · exact ⟨siteVars l, rfl, rfl⟩
    · exact ⟨embedVars l, rfl, rfl⟩

theorem getPlaybackToken_calls_ne_nil (w : World) (l : List Char) :
    (getPlaybackToken w l).2 ≠ [] := by
  rcases getPlaybackToken_calls w l with h | h <;> simp [h]

theorem playlistRoute_reject {w : World} {host ch : List Char}
    (hv : validChannel (lowerStr ch) = false) :
    playlistRoute w host ch =
      ({ status := 400, body := "bad_channel".data, contentType := some textPlain,
         cacheControl := none }, []) := by
  unfold playlistRoute
  rw [if_pos (by simp [hv])]

theorem playlistRoute_shape (w : World) (host ch : List Char)
    (hv : validChannel (lowerStr ch) = true) :
    ∃ rest, (playlistRoute w host ch).2 = (getPlaybackToken w (lowerStr ch)).2 ++ rest ∧
      (rest = [] ∨ rest = [NetCall.usher (lowerStr ch)]) ∧
      ((playlistRoute w host ch).1.status = 500 ∨ (playlistRoute w host ch).1.status = 200) := by
  unfold playlistRoute
  rw [if_neg (by simp [hv])]
  rcases getPlaybackToken w (lowerStr ch) with ⟨res, calls⟩
  rcases res with e | tok
  · exact ⟨[], by simp, Or.inl rfl, Or.inl (by simp)⟩
  · rcases w.usherResp (lowerStr ch) with m | ⟨s, ct, body⟩
    · exact ⟨[NetCall.usher (lowerStr ch)], by simp, Or.inr rfl, Or.inl (by simp)⟩
    · by_cases hok : okStatus s
      · exact ⟨[NetCall.usher (lowerStr ch)], by simp [hok], Or.inr rfl, Or.inr (by simp [hok])⟩
      · exact ⟨[NetCall.usher (lowerStr ch)], by simp [hok], Or.inr rfl, Or.inl (by simp [hok])⟩

theorem playlistRoute_400_iff (w : World) (host ch : List Char) :
    (playlistRoute w host ch).1.status = 400 ↔ validChannel (lowerStr ch) = false := by
  by_cases hv : validChannel (lowerStr ch)
  · obtain ⟨rest, htr, hrest, hst⟩ := playlistRoute_shape w host ch hv
    rcases hst with h | h <;> simp [h, hv]
  · have hv' : validChannel (lowerStr ch) = false := by
      cases h : validChannel (lowerStr ch)
      · rfl
      · exact absurd h hv
    simp [playlistRoute_reject hv', hv']

/-- C6 counterexample: the raw channel string `A` does not match the
pattern `^[a-z0-9_]{1,25}$` and the claim demands its rejection with a 400
status, but the handler accepts it (it validates only the lowercased
form), answering 200 in a world where every upstream call succeeds. -/
theorem claim6_counterexample :
    validChannel "A".data = false ∧
    (playlistRoute wOK hostEx "A".data).1.status = 200 ∧
    ¬(playlistRoute wOK hostEx "A".data).1.status = 400 := by
  refine ⟨by decide, by decide, by decide⟩

/-- C6 (amended): the handler rejects with status 400, body `bad_channel`
and no outbound network call exactly when the lowercased channel fails the
pattern; when the lowercased channel matches, the request is accepted: the
status is never 400 and at least one upstream call is made. -/
theorem claim6_channel_validation :
    ∀ (w : World) (host ch : List Char),
      (validChannel (lowerStr ch) = false →
        playlistRoute w host ch =
          ({ status := 400, body := "bad_channel".data, contentType := some textPlain,
             cacheControl := none }, [])) ∧
      (validChannel (lowerStr ch) = true →
        ¬(playlistRoute w host ch).1.status = 400 ∧ (playlistRoute w host ch).2 ≠ []) := by
  intro w host ch
  constructor
  · intro hv
    exact playlistRoute_reject hv
  · intro hv
    obtain ⟨rest, htr, hrest, hst⟩ := playlistRoute_shape w host ch hv
    constructor
    · rcases hst with h | h <;> simp [h]
    · rw [htr]
      simp [getPlaybackToken_calls_ne_nil w (lowerStr ch)]

theorem claim6_witness :
    playlistRoute wOK hostEx "UPPER-".data =
      ({ status := 400, body := "bad_channel".data, contentType := some textPlain,
         cacheControl := none }, []) ∧
    ¬(playlistRoute wOK hostEx "abc".data).1.status = 400 :=
  ⟨(claim6_channel_validation wOK hostEx "UPPER-".data).1 (by decide),
   ((claim6_channel_validation wOK hostEx "abc".data).2 (by decide)).1⟩

/-- C7: with a valid channel, whenever token acquisition fails the handler
answers 500 with the acquisition failure message as body, and every call in
its trace is a call to the authorization service: the manifest-delivery
service is never contacted. Each of the failure conditions named by the
specification (transport failure, non-success status on both attempts, a
success response lacking usable signature or value fields) makes token
acquisition fail. -/
theorem claim7_auth_failure :
    (∀ (w : World) (host ch e : List Char) (calls : List NetCall),
        validChannel (lowerStr ch) = true →
        getPlaybackToken w (lowerStr ch) = (Except.error e, calls) →
        playlistRoute w host ch =
          ({ status := 500, body := e, contentType := some textPlain, cacheControl := none },
           calls) ∧
        (∀ c ∈ calls, ∃ v, c = NetCall.gql v) ∧
        NetCall.usher (lowerStr ch) ∉ calls) ∧
    (∀ (w : World) (l : List Char),
        ((∃ m, w.gqlResp (siteVars l) = GqlResp.netError m) ∨
          (∃ s1 t1 s2 t2, w.gqlResp (siteVars l) = GqlResp.http s1 t1 ∧ okStatus s1 = false ∧
            w.gqlResp (embedVars l) = GqlResp.http s2 t2 ∧ okStatus s2 = false) ∨
          (∃ s1 t1, w.gqlResp (siteVars l) = GqlResp.http s1 t1 ∧ okStatus s1 = true ∧
            extractTok t1 = Except.error "no_token".data)) →
        ∃ e calls, getPlaybackToken w l = (Except.error e, calls)) := by
  constructor
  · intro w host ch e calls hv he
    have hmem : ∀ c ∈ calls, ∃ v, c = NetCall.gql v := by
      intro c hc
      obtain ⟨v, hvv, _⟩ := getPlaybackToken_calls_spec w (lowerStr ch) c (by rw [he]; exact hc)
      exact ⟨v, hvv⟩
    refine ⟨?_, hmem, ?_⟩
    · unfold playlistRoute
      rw [if_neg (by simp [hv]), he]
    · intro hin
      obtain ⟨v, hvv⟩ := hmem _ hin
      exact absurd hvv (by simp)
  · intro w l h
    rcases h with ⟨m, hm⟩ | ⟨s1, t1, s2, t2, h1, h2, h3, h4⟩ | ⟨s1, t1, h1, h2, h3⟩
    · exact ⟨m, [NetCall.gql (siteVars l)], by simp [getPlaybackToken, hm]⟩
    · refine ⟨"gql_failed_".data ++ natChars s2,
        [NetCall.gql (siteVars l), NetCall.gql (embedVars l)], ?_⟩
      simp [getPlaybackToken, h1, h2, h3, h4]
    · exact ⟨"no_token".data, [NetCall.gql (siteVars l)],
        by simp [getPlaybackToken, h1, h2, h3]⟩

theorem claim7_witness :
    playlistRoute wAuthFail hostEx "abc".data =
      ({ status := 500, body := "gql_failed_403".data, contentType := some textPlain,
         cacheControl := none },
       [NetCall.gql (siteVars "abc".data), NetCall.gql (embedVars "abc".data)]) ∧
    NetCall.usher "abc".data ∉
      [NetCall.gql (siteVars "abc".data), NetCall.gql (embedVars "abc".data)] := by
  have h := claim7_auth_failure.1 wAuthFail hostEx "abc".data "gql_failed_403".data
    [NetCall.gql (siteVars "abc".data), NetCall.gql (embedVars "abc".data)]
    (by decide) (by rfl)
  exact ⟨h.1.trans (by decide), h.2.2⟩

/-- C8: token acquisition makes at most two authorization calls: always one
with `playerType: 'site'`, and a second — only when the first returned a
non-success HTTP status — differing from the first solely in the
`playerType: 'embed'` variant; no third call exists. No other component
retries: a playlist request contacts the manifest service at most once and
a segment request makes at most one fetch. -/
theorem claim8_retry_discipline :
    ∀ (w : World) (l : List Char),
      ((getPlaybackToken w l).2 = [NetCall.gql (siteVars l)] ∨
        (getPlaybackToken w l).2 = [NetCall.gql (siteVars l),
          NetCall.gql { siteVars l with playerType := "embed".data }]) ∧
      (getPlaybackToken w l).2.length ≤ 2 ∧
      ((getPlaybackToken w l).2.length = 2 →
        ∃ s t, w.gqlResp (siteVars l) = GqlResp.http s t ∧ okStatus s = false) ∧
      (∀ host ch, ((playlistRoute w host ch).2.countP isUsherCall) ≤ 1) ∧
      (∀ host u, (segmentRoute w host u).2.length ≤ 1) := by
  intro w l
  refine ⟨getPlaybackToken_calls w l, ?_, ?_, ?_, ?_⟩
  · rcases getPlaybackToken_calls w l with h | h <;> simp [h]
  · intro hlen
    rcases hw : w.gqlResp (siteVars l) with m | ⟨s1, t1⟩
    · simp [getPlaybackToken, hw] at hlen
    · cases hok : okStatus s1 with
      | true => simp [getPlaybackToken, hw, hok] at hlen
      | false => exact ⟨s1, t1, rfl, hok⟩
  · intro host ch
    by_cases hv : validChannel (lowerStr ch)
    · obtain ⟨rest, htr, hrest, _⟩ := playlistRoute_shape w host ch hv
      rw [htr, List.countP_append]
      have h0 : (getPlaybackToken w (lowerStr ch)).2.countP isUsherCall = 0 := by
        rw [List.countP_eq_zero]
        intro a ha
        obtain ⟨v, rfl, _⟩ := getPlaybackToken_calls_spec w (lowerStr ch) a ha
        simp [isUsherCall]
      rcases hrest with rfl | rfl <;> simp [h0, List.countP_cons, isUsherCall]
    · have hv' : validChannel (lowerStr ch) = false := by
        cases h : validChannel (lowerStr ch)
        · rfl
        · exact absurd h hv
      simp [playlistRoute_reject hv']
  · intro host u
    rcases u with _ | url
    · simp [segmentRoute]
    · rcases hr : w.segResp url with m | ⟨s, ct, body⟩
      · simp [segmentRoute, hr]
      · simp only [segmentRoute, hr]
        repeat' split
        all_goals simp

theorem claim8_witness :
    (getPlaybackToken wAuthFail "abc".data).2 =
      [NetCall.gql (siteVars "abc".data),
       NetCall.gql { siteVars "abc".data with playerType := "embed".data }] ∧
    (getPlaybackToken wAuthFail "abc".data).2.length ≤ 2 ∧
    (∃ s t, wAuthFail.gqlResp (siteVars "abc".data) = GqlResp.http s t ∧ okStatus s = false) ∧
    (playlistRoute wAuthFail hostEx "abc".data).2.countP isUsherCall ≤ 1 := by
  have h := claim8_retry_discipline wAuthFail "abc".data
  refine ⟨?_, h.2.1, h.2.2.1 (by decide), h.2.2.2.1 hostEx "abc".data⟩
  rcases h.1 with h1 | h1
  · exact absurd h1 (by decide)
  · exact h1

/-- C9: a `/segment` request whose upstream response succeeds with a
content type that does not contain the manifest type returns the upstream
body unmodified with the upstream content type, after exactly one fetch. -/
theorem claim9_binary_passthrough :
    ∀ (w : World) (host u ct body : List Char) (s : Nat),
      w.segResp u = FetchResp.http s (some ct) body →
      okStatus s = true →
      containsSub ct mpegurlCT = false →
      segmentRoute w host (some u) =
        ({ status := 200, body := body, contentType := some ct, cacheControl := some noStore },
         [NetCall.fetchSeg u]) := by
  intro w host u ct body s hw hok hct
  simp [segmentRoute, hw, hok, hct]

theorem claim9_witness :
    segmentRoute wOK hostEx (some "https://h/seg1.ts".data) =
      ({ status := 200, body := "segbytes".data, contentType := some "video/mp2t".data,
         cacheControl := some noStore },
       [NetCall.fetchSeg "https://h/seg1.ts".data]) :=
  claim9_binary_passthrough wOK hostEx "https://h/seg1.ts".data "video/mp2t".data
    "segbytes".data 200 (by decide) (by decide) (by decide)

/-- C10: the `/playlist` handler validates only the lowercased channel: it
answers 400 exactly when the lowercase form fails the pattern, so a string
like `ExampleChannel` whose lowercase form matches is accepted even though
the raw input does not match; and every upstream call of an accepted
request carries the lowercased channel, not the raw input. -/
theorem claim10_lowercase_then_validate :
    (∀ (w : World) (host ch : List Char),
        ((playlistRoute w host ch).1.status = 400 ↔ validChannel (lowerStr ch) = false)) ∧
    (∀ (w : World) (host ch : List Char),
        validChannel (lowerStr ch) = true →
        ∀ c ∈ (playlistRoute w host ch).2, loginOf c = lowerStr ch) ∧
    validChannel (lowerStr "ExampleChannel".data) = true ∧
    validChannel "ExampleChannel".data = false ∧
    (playlistRoute wOK hostEx "ExampleChannel".data).1.status = 200 := by
  refine ⟨playlistRoute_400_iff, ?_, by decide, by decide, by decide⟩
  intro w host ch hv c hc
  obtain ⟨rest, htr, hrest, _⟩ := playlistRoute_shape w host ch hv
  rw [htr] at hc
  rcases List.mem_append.mp hc with h | h
  · obtain ⟨v, rfl, hlogin⟩ := getPlaybackToken_calls_spec w (lowerStr ch) c h
    simp [loginOf, hlogin]
  · rcases hrest with rfl | rfl
    · simp at h
    · simp at h
      simp [h, loginOf]

theorem claim10_witness :
    ∀ c ∈ (playlistRoute wOK hostEx "ExampleChannel".data).2,
      loginOf c = lowerStr "ExampleChannel".data :=
  claim10_lowercase_then_validate.2.1 wOK hostEx "ExampleChannel".data (by decide)

end AdFreeProxy
